import Mathlib

/-!
Verification of the asahi-map input-remapping engine.

The definitions below are a shallow embedding of the Go sources:
key codes are `Nat`, event values are `Int` (0 = release, 1 = press,
2 = repeat), Go maps are association lists, and the uinput virtual
keyboard is modelled as a write log driven by a success oracle.
-/

/-- Modifier key codes, from internal/keyboard/events.go. -/
def KEY_LEFTSHIFT : Nat := 42
def KEY_RIGHTSHIFT : Nat := 54
def KEY_LEFTCTRL : Nat := 29
def KEY_RIGHTCTRL : Nat := 97
def KEY_LEFTALT : Nat := 56
def KEY_RIGHTALT : Nat := 100
def KEY_LEFTMETA : Nat := 125
def KEY_RIGHTMETA : Nat := 126

/-- KeyEvent from internal/keyboard/events.go (timestamp and device dropped:
no claim mentions them). -/
structure KeyEvent where
  code : Nat
  value : Int
deriving DecidableEq, Repr

/-- KeyState from internal/keyboard/events.go. -/
structure KeyState where
  leftAlt : Bool := false
  rightAlt : Bool := false
  leftShift : Bool := false
  rightShift : Bool := false
  leftCtrl : Bool := false
  rightCtrl : Bool := false
  leftMeta : Bool := false
  rightMeta : Bool := false
deriving DecidableEq, Repr

/-- KeyState.UpdateFromEvent from internal/keyboard/events.go. -/
def UpdateFromEvent (ks : KeyState) (ev : KeyEvent) : KeyState :=
  let pressed := ev.value = 1
  let released := ev.value = 0
  if ev.code = KEY_LEFTALT then
    if pressed then { ks with leftAlt := true }
    else if released then { ks with leftAlt := false } else ks
  else if ev.code = KEY_RIGHTALT then
    if pressed then { ks with rightAlt := true }
    else if released then { ks with rightAlt := false } else ks
  else if ev.code = KEY_LEFTSHIFT then
    if pressed then { ks with leftShift := true }
    else if released then { ks with leftShift := false } else ks
  else if ev.code = KEY_RIGHTSHIFT then
    if pressed then { ks with rightShift := true }
    else if released then { ks with rightShift := false } else ks
  else if ev.code = KEY_LEFTCTRL then
    if pressed then { ks with leftCtrl := true }
    else if released then { ks with leftCtrl := false } else ks
  else if ev.code = KEY_RIGHTCTRL then
    if pressed then { ks with rightCtrl := true }
    else if released then { ks with rightCtrl := false } else ks
  else if ev.code = KEY_LEFTMETA then
    if pressed then { ks with leftMeta := true }
    else if released then { ks with leftMeta := false } else ks
  else if ev.code = KEY_RIGHTMETA then
    if pressed then { ks with rightMeta := true }
    else if released then { ks with rightMeta := false } else ks
  else ks

/-- KeyState.LeftAltPressed from internal/keyboard/events.go. -/
def LeftAltPressed (ks : KeyState) : Bool := ks.leftAlt

/-- KeyState.ShiftPressed from internal/keyboard/events.go. -/
def ShiftPressed (ks : KeyState) : Bool := ks.leftShift || ks.rightShift

/-- IsModifier from internal/keyboard/events.go. -/
def IsModifier (code : Nat) : Bool :=
  code = KEY_LEFTALT || code = KEY_RIGHTALT ||
  code = KEY_LEFTSHIFT || code = KEY_RIGHTSHIFT ||
  code = KEY_LEFTCTRL || code = KEY_RIGHTCTRL ||
  code = KEY_LEFTMETA || code = KEY_RIGHTMETA

/-- KeyCodeToName from internal/mappings (keycodes source file). -/
def KeyCodeToName (c : Nat) : Option String :=
  match c with
  | 2 => some "1"
  | 3 => some "2"
  | 4 => some "3"
  | 5 => some "4"
  | 6 => some "5"
  | 7 => some "6"
  | 8 => some "7"
  | 9 => some "8"
  | 10 => some "9"
  | 11 => some "0"
  | 12 => some "minus"
  | 13 => some "equal"
  | 16 => some "q"
  | 17 => some "w"
  | 18 => some "e"
  | 19 => some "r"
  | 20 => some "t"
  | 21 => some "y"
  | 22 => some "u"
  | 23 => some "i"
  | 24 => some "o"
  | 25 => some "p"
  | 26 => some "leftbrace"
  | 27 => some "rightbrace"
  | 30 => some "a"
  | 31 => some "s"
  | 32 => some "d"
  | 33 => some "f"
  | 34 => some "g"
  | 35 => some "h"
  | 36 => some "j"
  | 37 => some "k"
  | 38 => some "l"
  | 39 => some "semicolon"
  | 40 => some "apostrophe"
  | 41 => some "grave"
  | 43 => some "backslash"
  | 44 => some "z"
  | 45 => some "x"
  | 46 => some "c"
  | 47 => some "v"
  | 48 => some "b"
  | 49 => some "n"
  | 50 => some "m"
  | 51 => some "comma"
  | 52 => some "dot"
  | 53 => some "slash"
  | 57 => some "space"
  | 86 => some "102nd"
  | _ => none

/-- Association-list lookup, modelling Go map indexing. -/
def lookupA {α : Type} (l : List (String × α)) (k : String) : Option α :=
  match l with
  | [] => none
  | p :: rest => if p.1 = k then some p.2 else lookupA rest k

/-- The name/code pairs of the table, in table order. -/
def nameCodePairs : List (String × Nat) :=
  [("1", 2), ("2", 3), ("3", 4), ("4", 5), ("5", 6), ("6", 7), ("7", 8),
   ("8", 9), ("9", 10), ("0", 11), ("minus", 12), ("equal", 13), ("q", 16),
   ("w", 17), ("e", 18), ("r", 19), ("t", 20), ("y", 21), ("u", 22),
   ("i", 23), ("o", 24), ("p", 25), ("leftbrace", 26), ("rightbrace", 27),
   ("a", 30), ("s", 31), ("d", 32), ("f", 33), ("g", 34), ("h", 35),
   ("j", 36), ("k", 37), ("l", 38), ("semicolon", 39), ("apostrophe", 40),
   ("grave", 41), ("backslash", 43), ("z", 44), ("x", 45), ("c", 46),
   ("v", 47), ("b", 48), ("n", 49), ("m", 50), ("comma", 51), ("dot", 52),
   ("slash", 53), ("space", 57), ("102nd", 86)]

/-- NameToKeyCode from internal/mappings: the inverse map the Go init
loop builds from KeyCodeToName (the names are pairwise distinct, so the
iteration order does not matter). -/
def NameToKeyCode (s : String) : Option Nat :=
  lookupA nameCodePairs s

/-- Mapping from internal/mappings: a single key mapping
(char / codepoint / dead-key activation / passthrough). -/
structure Mapping where
  char : String := ""
  codepoint : Nat := 0
  isDeadKey : Bool := false
  deadKeyID : String := ""
  passthrough : String := ""
deriving DecidableEq, Repr

/-- Mapping.GetOutput from internal/mappings (runes are modelled as
their codepoint `Nat`). -/
def Mapping.GetOutput (m : Mapping) : Option Nat :=
  if m.codepoint ≠ 0 then some m.codepoint
  else match m.char.toList with
    | [] => none
    | r :: _ => some r.toNat

/-- DeadKey from internal/mappings: base glyph plus combination table. -/
structure DeadKey where
  base : String
  combinations : List (String × String)
deriving DecidableEq, Repr

/-- KeyLookup from internal/mappings: the built alt and shift-alt lookup
maps, the layout's dead-key definitions, and the active dead key. -/
structure KeyLookup where
  deadKeys : List (String × DeadKey)
  altMap : List (String × Mapping)
  shiftAltMap : List (String × Mapping)
  activeDeadKey : Option DeadKey
deriving DecidableEq, Repr

/-- KeyLookup.LookupAlt from internal/mappings. -/
def LookupAlt (kl : KeyLookup) (key : String) : Option Mapping :=
  lookupA kl.altMap key

/-- KeyLookup.LookupShiftAlt from internal/mappings. -/
def LookupShiftAlt (kl : KeyLookup) (key : String) : Option Mapping :=
  lookupA kl.shiftAltMap key

/-- KeyLookup.SetDeadKey from internal/mappings: arm the dead key if the
id is defined, otherwise leave the state untouched. -/
def SetDeadKey (kl : KeyLookup) (id : String) : KeyLookup :=
  match lookupA kl.deadKeys id with
  | some dk => { kl with activeDeadKey := some dk }
  | none => kl

/-- KeyLookup.ClearDeadKey from internal/mappings. -/
def ClearDeadKey (kl : KeyLookup) : KeyLookup :=
  { kl with activeDeadKey := none }

/-- KeyLookup.HasActiveDeadKey from internal/mappings. -/
def HasActiveDeadKey (kl : KeyLookup) : Bool :=
  kl.activeDeadKey.isSome

/-- KeyLookup.ApplyDeadKey from internal/mappings: returns the resulting
string, the applied flag, and the updated lookup state. -/
def ApplyDeadKey (kl : KeyLookup) (ch : String) : String × Bool × KeyLookup :=
  match kl.activeDeadKey with
  | none => (ch, false, kl)
  | some dk =>
    let kl' := { kl with activeDeadKey := none }
    match lookupA dk.combinations ch with
    | some combined => (combined, true, kl')
    | none => (dk.base ++ ch, true, kl')

/-- A single synthetic-keyboard write: key-down or key-up of a code. -/
inductive KOp where
  | down : Nat → KOp
  | up : Nat → KOp
deriving DecidableEq, Repr

/-- The code a write touches. -/
def KOp.code : KOp → Nat
  | .down c => c
  | .up c => c

/-- A logged write attempt: the operation and whether the device write
succeeded. -/
structure Entry where
  op : KOp
  ok : Bool
deriving DecidableEq, Repr

/-- Success oracle for the uinput device: whether the n-th write attempt
succeeds. -/
def Oracle : Type := Nat → Bool

/-- The all-writes-succeed oracle. -/
def allOk : Oracle := fun _ => true

/-- uinput Keyboard.KeyDown: one write attempt. Returns success, the
logged attempt, and the next write index. -/
def keyDown (o : Oracle) (n : Nat) (c : Nat) : Bool × List Entry × Nat :=
  (o n, [⟨.down c, o n⟩], n + 1)

/-- uinput Keyboard.KeyUp: one write attempt. -/
def keyUp (o : Oracle) (n : Nat) (c : Nat) : Bool × List Entry × Nat :=
  (o n, [⟨.up c, o n⟩], n + 1)

/-- uinput Keyboard.KeyPress: key-down then, if it succeeded, key-up. -/
def keyPress (o : Oracle) (n : Nat) (c : Nat) : Bool × List Entry × Nat :=
  let r1 := keyDown o n c
  if r1.1 = false then (false, r1.2.1, r1.2.2)
  else
    let r2 := keyUp o r1.2.2 c
    (r2.1, r1.2.1 ++ r2.2.1, r2.2.2)

/-- VirtualKeyboard.typeWithShift from internal/keyboard: tap a key with
left Shift held, releasing Shift on the failure path. -/
def typeWithShift (o : Oracle) (n : Nat) (keyCode : Nat) : Bool × List Entry × Nat :=
  let r1 := keyDown o n KEY_LEFTSHIFT
  if r1.1 = false then (false, r1.2.1, r1.2.2)
  else
    let r2 := keyPress o r1.2.2 keyCode
    if r2.1 = false then
      let r3 := keyUp o r2.2.2 KEY_LEFTSHIFT
      (false, r1.2.1 ++ r2.2.1 ++ r3.2.1, r3.2.2)
    else
      let r4 := keyUp o r2.2.2 KEY_LEFTSHIFT
      (r4.1, r1.2.1 ++ r2.2.1 ++ r4.2.1, r4.2.2)

/-- VirtualKeyboard.typeHexChar from internal/keyboard: one hex character;
digits are typed with Shift (AZERTY), letters a-f at their AZERTY physical
positions, anything else is a silent no-op. -/
def typeHexChar (o : Oracle) (n : Nat) (c : Char) : Bool × List Entry × Nat :=
  match c with
  | '0' => typeWithShift o n 11
  | '1' => typeWithShift o n 2
  | '2' => typeWithShift o n 3
  | '3' => typeWithShift o n 4
  | '4' => typeWithShift o n 5
  | '5' => typeWithShift o n 6
  | '6' => typeWithShift o n 7
  | '7' => typeWithShift o n 8
  | '8' => typeWithShift o n 9
  | '9' => typeWithShift o n 10
  | 'a' | 'A' => keyPress o n 16
  | 'b' | 'B' => keyPress o n 48
  | 'c' | 'C' => keyPress o n 46
  | 'd' | 'D' => keyPress o n 32
  | 'e' | 'E' => keyPress o n 18
  | 'f' | 'F' => keyPress o n 33
  | _ => (true, [], n)

/-- The hex digits (most significant first, each below 16) of a natural
number, as produced by the %x format verb. -/
def hexNats (n : Nat) : List Nat :=
  if _h : n < 16 then [n] else hexNats (n / 16) ++ [n % 16]
decreasing_by exact Nat.div_lt_self (by omega) (by omega)

/-- The lowercase hex string of a codepoint, as a character list. -/
def hexChars (n : Nat) : List Char := (hexNats n).map Nat.digitChar

/-- The digit loop of VirtualKeyboard.TypeUnicode: type each hex
character, aborting on the first failure. -/
def typeHexLoop (o : Oracle) (n : Nat) : List Char → Bool × List Entry × Nat
  | [] => (true, [], n)
  | c :: cs =>
    let r1 := typeHexChar o n c
    if r1.1 = false then (false, r1.2.1, r1.2.2)
    else
      let r2 := typeHexLoop o r1.2.2 cs
      (r2.1, r1.2.1 ++ r2.2.1, r2.2.2)

/-- VirtualKeyboard.TypeUnicode from internal/keyboard: Ctrl+Shift+U
prefix with failure cleanup, the hex digits, then a Space tap. -/
def TypeUnicode (o : Oracle) (n : Nat) (r : Nat) : Bool × List Entry × Nat :=
  let r1 := keyDown o n KEY_LEFTCTRL
  if r1.1 = false then (false, r1.2.1, r1.2.2)
  else
    let r2 := keyDown o r1.2.2 KEY_LEFTSHIFT
    if r2.1 = false then
      let c1 := keyUp o r2.2.2 KEY_LEFTCTRL
      (false, r1.2.1 ++ r2.2.1 ++ c1.2.1, c1.2.2)
    else
      let r3 := keyPress o r2.2.2 22
      if r3.1 = false then
        let c1 := keyUp o r3.2.2 KEY_LEFTSHIFT
        let c2 := keyUp o c1.2.2 KEY_LEFTCTRL
        (false, r1.2.1 ++ r2.2.1 ++ r3.2.1 ++ c1.2.1 ++ c2.2.1, c2.2.2)
      else
        let r4 := keyUp o r3.2.2 KEY_LEFTSHIFT
        if r4.1 = false then
          let c1 := keyUp o r4.2.2 KEY_LEFTCTRL
          (false, r1.2.1 ++ r2.2.1 ++ r3.2.1 ++ r4.2.1 ++ c1.2.1, c1.2.2)
        else
          let r5 := keyUp o r4.2.2 KEY_LEFTCTRL
          if r5.1 = false then
            (false, r1.2.1 ++ r2.2.1 ++ r3.2.1 ++ r4.2.1 ++ r5.2.1, r5.2.2)
          else
            let r6 := typeHexLoop o r5.2.2 (hexChars r)
            if r6.1 = false then
              (false, r1.2.1 ++ r2.2.1 ++ r3.2.1 ++ r4.2.1 ++ r5.2.1 ++ r6.2.1, r6.2.2)
            else
              let r7 := keyPress o r6.2.2 57
              (r7.1,
               r1.2.1 ++ r2.2.1 ++ r3.2.1 ++ r4.2.1 ++ r5.2.1 ++ r6.2.1 ++ r7.2.1,
               r7.2.2)

/-- VirtualKeyboard.PassthroughWithRAlt from internal/keyboard. -/
def PassthroughWithRAlt (o : Oracle) (n : Nat) (keyCode : Nat) : Bool × List Entry × Nat :=
  let r1 := keyDown o n KEY_RIGHTALT
  if r1.1 = false then (false, r1.2.1, r1.2.2)
  else
    let r2 := keyPress o r1.2.2 keyCode
    if r2.1 = false then
      let c1 := keyUp o r2.2.2 KEY_RIGHTALT
      (false, r1.2.1 ++ r2.2.1 ++ c1.2.1, c1.2.2)
    else
      let r3 := keyUp o r2.2.2 KEY_RIGHTALT
      (r3.1, r1.2.1 ++ r2.2.1 ++ r3.2.1, r3.2.2)

/-- VirtualKeyboard.PassthroughWithShiftRAlt from internal/keyboard:
`shiftAlreadyDown` means the user already holds Shift, so the sequence
never touches Shift itself. -/
def PassthroughWithShiftRAlt (o : Oracle) (n : Nat) (keyCode : Nat)
    (shiftAlreadyDown : Bool) : Bool × List Entry × Nat :=
  let rS := if shiftAlreadyDown then (true, ([] : List Entry), n)
            else keyDown o n KEY_LEFTSHIFT
  if rS.1 = false then (false, rS.2.1, rS.2.2)
  else
    let r1 := keyDown o rS.2.2 KEY_RIGHTALT
    if r1.1 = false then
      let c1 := if shiftAlreadyDown then (true, ([] : List Entry), r1.2.2)
                else keyUp o r1.2.2 KEY_LEFTSHIFT
      (false, rS.2.1 ++ r1.2.1 ++ c1.2.1, c1.2.2)
    else
      let r2 := keyPress o r1.2.2 keyCode
      if r2.1 = false then
        let c1 := keyUp o r2.2.2 KEY_RIGHTALT
        let c2 := if shiftAlreadyDown then (true, ([] : List Entry), c1.2.2)
                  else keyUp o c1.2.2 KEY_LEFTSHIFT
        (false, rS.2.1 ++ r1.2.1 ++ r2.2.1 ++ c1.2.1 ++ c2.2.1, c2.2.2)
      else
        let r3 := keyUp o r2.2.2 KEY_RIGHTALT
        if r3.1 = false then
          let c1 := if shiftAlreadyDown then (true, ([] : List Entry), r3.2.2)
                    else keyUp o r3.2.2 KEY_LEFTSHIFT
          (false, rS.2.1 ++ r1.2.1 ++ r2.2.1 ++ r3.2.1 ++ c1.2.1, c1.2.2)
        else
          if shiftAlreadyDown then
            (true, rS.2.1 ++ r1.2.1 ++ r2.2.1 ++ r3.2.1, r3.2.2)
          else
            let r4 := keyUp o r3.2.2 KEY_LEFTSHIFT
            (r4.1, rS.2.1 ++ r1.2.1 ++ r2.2.1 ++ r3.2.1 ++ r4.2.1, r4.2.2)

/-- One synthetic-output action at the virtual-keyboard call granularity,
as invoked by the handler. -/
inductive Out where
  | forward : Nat → Int → Out
  | typeUnicodeOut : Nat → Out
  | typeStringOut : String → Out
  | passRAlt : Nat → Out
  | passShiftRAlt : Nat → Bool → Out
deriving DecidableEq, Repr

/-- Handler from internal/handler/handler.go (logger dropped; the
intercepted-key map is modelled as its key set). -/
structure Handler where
  lookup : KeyLookup
  keyState : KeyState
  enabled : Bool
  interceptedKeys : List Nat
deriving DecidableEq, Repr

/-- Go map insertion `m[c] = true`: a set insert. -/
def insertKey (l : List Nat) (c : Nat) : List Nat :=
  if l.contains c then l else c :: l

/-- Handler.SetEnabled from internal/handler/handler.go. -/
def SetEnabled (h : Handler) (b : Bool) : Handler :=
  { h with enabled := b }

/-- Handler.executeMapping from internal/handler/handler.go. -/
def executeMapping (h : Handler) (m : Mapping) (_keyCode : Nat) : Handler × List Out :=
  if m.passthrough ≠ "" then
    match NameToKeyCode m.passthrough with
    | none => (h, [])
    | some passthroughCode =>
      if ShiftPressed h.keyState then (h, [.passShiftRAlt passthroughCode true])
      else (h, [.passRAlt passthroughCode])
  else if m.isDeadKey then
    let h1 := { h with lookup := SetDeadKey h.lookup m.deadKeyID }
    match m.GetOutput with
    | some r => (h1, [.typeUnicodeOut r])
    | none => (h1, [])
  else
    match m.GetOutput with
    | some r => (h, [.typeUnicodeOut r])
    | none => (h, [])

/-- Handler.handleDeadKeyCombo from internal/handler/handler.go. -/
def handleDeadKeyCombo (h : Handler) (ev : KeyEvent) : Handler × List Out :=
  match KeyCodeToName ev.code with
  | none => ({ h with lookup := ClearDeadKey h.lookup }, [.forward ev.code ev.value])
  | some keyName =>
    let r := ApplyDeadKey h.lookup keyName
    let h1 := { h with lookup := r.2.2 }
    if r.2.1 then
      ({ h1 with interceptedKeys := insertKey h1.interceptedKeys ev.code },
       [.typeStringOut r.1])
    else (h1, [.forward ev.code ev.value])

/-- Handler.handleEvent from internal/handler/handler.go. -/
def handleEvent (h : Handler) (ev : KeyEvent) : Handler × List Out :=
  let ks := UpdateFromEvent h.keyState ev
  let h0 : Handler := { h with keyState := ks }
  if ev.code = KEY_LEFTALT then (h0, [])
  else if IsModifier ev.code then (h0, [.forward ev.code ev.value])
  else if h0.enabled = false then (h0, [.forward ev.code ev.value])
  else if ev.value = 0 then
    let wasIntercepted := h0.interceptedKeys.contains ev.code
    let h1 := { h0 with interceptedKeys := h0.interceptedKeys.erase ev.code }
    if wasIntercepted then (h1, []) else (h1, [.forward ev.code ev.value])
  else if ev.value ≠ 1 then (h0, [.forward ev.code ev.value])
  else if LeftAltPressed ks = false then
    if HasActiveDeadKey h0.lookup then handleDeadKeyCombo h0 ev
    else (h0, [.forward ev.code ev.value])
  else
    match KeyCodeToName ev.code with
    | none => (h0, [.forward ev.code ev.value])
    | some keyName =>
      let mapping := if ShiftPressed ks then LookupShiftAlt h0.lookup keyName
                     else LookupAlt h0.lookup keyName
      match mapping with
      | none => (h0, [.forward ev.code ev.value])
      | some m =>
        let h1 := { h0 with interceptedKeys := insertKey h0.interceptedKeys ev.code }
        executeMapping h1 m ev.code

/-- Handler.ProcessEvents consumer loop, restricted to a finite event
list: fold `handleEvent`, concatenating the emitted outputs. -/
def processEvents (h : Handler) : List KeyEvent → Handler × List Out
  | [] => (h, [])
  | ev :: evs =>
    let r1 := handleEvent h ev
    let r2 := processEvents r1.1 evs
    (r2.1, r1.2 ++ r2.2)

/-- A code that is not a modifier differs from all eight modifier codes. -/
theorem IsModifier_false_ne {c : Nat} (h : IsModifier c = false) :
    c ≠ 56 ∧ c ≠ 100 ∧ c ≠ 42 ∧ c ≠ 54 ∧ c ≠ 29 ∧ c ≠ 97 ∧ c ≠ 125 ∧ c ≠ 126 := by
  simp only [IsModifier, KEY_LEFTALT, KEY_RIGHTALT, KEY_LEFTSHIFT, KEY_RIGHTSHIFT,
    KEY_LEFTCTRL, KEY_RIGHTCTRL, KEY_LEFTMETA, KEY_RIGHTMETA,
    Bool.or_eq_false_iff, decide_eq_false_iff_not] at h
  tauto

/-- Events on non-modifier codes do not change the tracked modifier state. -/
theorem UpdateFromEvent_nonmod (ks : KeyState) (ev : KeyEvent)
    (h : IsModifier ev.code = false) : UpdateFromEvent ks ev = ks := by
  obtain ⟨h1, h2, h3, h4, h5, h6, h7, h8⟩ := IsModifier_false_ne h
  simp [UpdateFromEvent, KEY_LEFTALT, KEY_RIGHTALT, KEY_LEFTSHIFT, KEY_RIGHTSHIFT,
    KEY_LEFTCTRL, KEY_RIGHTCTRL, KEY_LEFTMETA, KEY_RIGHTMETA,
    h1, h2, h3, h4, h5, h6, h7, h8]

/-- Branch lemma: the trigger key is consumed with no output. -/
theorem handleEvent_leftalt (h : Handler) (v : Int) :
    handleEvent h ⟨56, v⟩ =
      ({ h with keyState := UpdateFromEvent h.keyState ⟨56, v⟩ }, []) := by
  simp [handleEvent, KEY_LEFTALT]

/-- Branch lemma: any other modifier is forwarded unchanged. -/
theorem handleEvent_modifier (h : Handler) (c : Nat) (v : Int)
    (hc : c ≠ 56) (hm : IsModifier c = true) :
    handleEvent h ⟨c, v⟩ =
      ({ h with keyState := UpdateFromEvent h.keyState ⟨c, v⟩ },
       [Out.forward c v]) := by
  simp [handleEvent, KEY_LEFTALT, hc, hm]

/-- Branch lemma: with the engine disabled, a non-trigger non-modifier
event is forwarded unchanged and the intercepted set is untouched. -/
theorem handleEvent_disabled (h : Handler) (c : Nat) (v : Int)
    (hc : c ≠ 56) (hm : IsModifier c = false) (hen : h.enabled = false) :
    handleEvent h ⟨c, v⟩ =
      ({ h with keyState := UpdateFromEvent h.keyState ⟨c, v⟩ },
       [Out.forward c v]) := by
  simp [handleEvent, KEY_LEFTALT, hc, hm, hen]

/-- Branch lemma: with the engine enabled, a release consults and prunes
the intercepted set. -/
theorem handleEvent_release (h : Handler) (c : Nat)
    (hc : c ≠ 56) (hm : IsModifier c = false) (hen : h.enabled = true) :
    handleEvent h ⟨c, 0⟩ =
      ({ h with keyState := UpdateFromEvent h.keyState ⟨c, 0⟩,
                interceptedKeys := h.interceptedKeys.erase c },
       if h.interceptedKeys.contains c then [] else [Out.forward c 0]) := by
  simp only [handleEvent, KEY_LEFTALT, hm, hen]
  split
  · simp_all
  · by_cases hmem : c ∈ h.interceptedKeys <;> simp_all

/-- Branch lemma: with the engine enabled, a non-press non-release event
(repeat) is forwarded unchanged. -/
theorem handleEvent_repeat (h : Handler) (c : Nat) (v : Int)
    (hc : c ≠ 56) (hm : IsModifier c = false) (hen : h.enabled = true)
    (hv0 : v ≠ 0) (hv1 : v ≠ 1) :
    handleEvent h ⟨c, v⟩ =
      ({ h with keyState := UpdateFromEvent h.keyState ⟨c, v⟩ },
       [Out.forward c v]) := by
  simp [handleEvent, KEY_LEFTALT, hc, hm, hen, hv0, hv1]

/-- Branch lemma: an enabled press with the trigger not held and no armed
dead key is forwarded unchanged. -/
theorem handleEvent_press_plain (h : Handler) (c : Nat)
    (hc : c ≠ 56) (hm : IsModifier c = false) (hen : h.enabled = true)
    (halt : (UpdateFromEvent h.keyState ⟨c, 1⟩).leftAlt = false)
    (hdk : h.lookup.activeDeadKey = none) :
    handleEvent h ⟨c, 1⟩ =
      ({ h with keyState := UpdateFromEvent h.keyState ⟨c, 1⟩ },
       [Out.forward c 1]) := by
  simp [handleEvent, KEY_LEFTALT, hc, hm, hen, LeftAltPressed, halt,
    HasActiveDeadKey, hdk]

/-- Branch lemma: an enabled press with the trigger not held routes to
the dead-key composer when one is armed. -/
theorem handleEvent_press_deadkey (h : Handler) (c : Nat)
    (hc : c ≠ 56) (hm : IsModifier c = false) (hen : h.enabled = true)
    (halt : (UpdateFromEvent h.keyState ⟨c, 1⟩).leftAlt = false)
    (hdk : h.lookup.activeDeadKey.isSome) :
    handleEvent h ⟨c, 1⟩ =
      handleDeadKeyCombo { h with keyState := UpdateFromEvent h.keyState ⟨c, 1⟩ }
        ⟨c, 1⟩ := by
  simp [handleEvent, KEY_LEFTALT, hc, hm, hen, LeftAltPressed, halt,
    HasActiveDeadKey, hdk]

/-- Branch lemma: an enabled press with the trigger held resolves the
name and the mapping table; with no entry it forwards unchanged, with an
entry it intercepts the code and executes the mapping. -/
theorem handleEvent_press_alt (h : Handler) (c : Nat)
    (hc : c ≠ 56) (hm : IsModifier c = false) (hen : h.enabled = true)
    (halt : (UpdateFromEvent h.keyState ⟨c, 1⟩).leftAlt = true) :
    handleEvent h ⟨c, 1⟩ =
      (match KeyCodeToName c with
       | none => ({ h with keyState := UpdateFromEvent h.keyState ⟨c, 1⟩ },
                  [Out.forward c 1])
       | some keyName =>
         match (if ShiftPressed (UpdateFromEvent h.keyState ⟨c, 1⟩)
                then LookupShiftAlt h.lookup keyName
                else LookupAlt h.lookup keyName) with
         | none => ({ h with keyState := UpdateFromEvent h.keyState ⟨c, 1⟩ },
                    [Out.forward c 1])
         | some m =>
           executeMapping
             { h with keyState := UpdateFromEvent h.keyState ⟨c, 1⟩,
                      interceptedKeys := insertKey h.interceptedKeys c }
             m c) := by
  simp [handleEvent, KEY_LEFTALT, hc, hm, hen, LeftAltPressed, halt]

/-- Set-insert membership: other codes are unaffected. -/
theorem mem_insertKey_ne (l : List Nat) (c d : Nat) (hd : d ≠ c) :
    (d ∈ insertKey l c) ↔ d ∈ l := by
  unfold insertKey; split <;> simp [hd]

/-- Set-insert membership: the inserted code is present. -/
theorem mem_insertKey_self (l : List Nat) (c : Nat) : c ∈ insertKey l c := by
  unfold insertKey; split <;> simp_all

/-- Set-insert preserves distinctness. -/
theorem nodup_insertKey (l : List Nat) (c : Nat) (h : l.Nodup) :
    (insertKey l c).Nodup := by
  unfold insertKey; split
  · exact h
  · exact List.nodup_cons.mpr ⟨by simp_all, h⟩

/-- executeMapping never changes the enabled flag. -/
theorem executeMapping_enabled (h : Handler) (m : Mapping) (c : Nat) :
    (executeMapping h m c).1.enabled = h.enabled := by
  unfold executeMapping
  dsimp only
  repeat' split
  all_goals rfl

/-- executeMapping never changes the intercepted set. -/
theorem executeMapping_keys (h : Handler) (m : Mapping) (c : Nat) :
    (executeMapping h m c).1.interceptedKeys = h.interceptedKeys := by
  unfold executeMapping
  dsimp only
  repeat' split
  all_goals rfl

/-- handleDeadKeyCombo never changes the enabled flag. -/
theorem handleDeadKeyCombo_enabled (h : Handler) (ev : KeyEvent) :
    (handleDeadKeyCombo h ev).1.enabled = h.enabled := by
  unfold handleDeadKeyCombo
  dsimp only
  repeat' split
  all_goals rfl

/-- handleDeadKeyCombo leaves the intercepted set unchanged or inserts
the event's own code. -/
theorem handleDeadKeyCombo_keys (h : Handler) (ev : KeyEvent) :
    (handleDeadKeyCombo h ev).1.interceptedKeys = h.interceptedKeys ∨
    (handleDeadKeyCombo h ev).1.interceptedKeys = insertKey h.interceptedKeys ev.code := by
  unfold handleDeadKeyCombo
  dsimp only
  repeat' split
  · exact Or.inl rfl
  · exact Or.inr rfl
  · exact Or.inl rfl

/-- handleEvent never changes the enabled flag. -/
theorem handleEvent_enabled (h : Handler) (ev : KeyEvent) :
    (handleEvent h ev).1.enabled = h.enabled := by
  obtain ⟨c, v⟩ := ev
  by_cases h56 : c = 56
  · subst h56; rw [handleEvent_leftalt]
  · by_cases hm : IsModifier c = true
    · rw [handleEvent_modifier h c v h56 hm]
    · rw [Bool.not_eq_true] at hm
      by_cases hen : h.enabled = true
      · by_cases hv0 : v = 0
        · subst hv0; rw [handleEvent_release h c h56 hm hen]
        · by_cases hv1 : v = 1
          · subst hv1
            by_cases halt : (UpdateFromEvent h.keyState ⟨c, 1⟩).leftAlt = true
            · rw [handleEvent_press_alt h c h56 hm hen halt]
              repeat' split
              all_goals first | rfl | exact executeMapping_enabled _ _ _
            · rw [Bool.not_eq_true] at halt
              cases hdk : h.lookup.activeDeadKey with
              | none =>
                rw [handleEvent_press_plain h c h56 hm hen halt hdk]
              | some dk =>
                rw [handleEvent_press_deadkey h c h56 hm hen halt (by simp [hdk]),
                  handleDeadKeyCombo_enabled]
          · rw [handleEvent_repeat h c v h56 hm hen hv0 hv1]
      · rw [Bool.not_eq_true] at hen
        rw [handleEvent_disabled h c v h56 hm hen]

/-- handleEvent changes intercepted-set membership only at the event's
own code. -/
theorem handleEvent_mem_ne (h : Handler) (ev : KeyEvent) (d : Nat)
    (hd : d ≠ ev.code) :
    (d ∈ (handleEvent h ev).1.interceptedKeys ↔ d ∈ h.interceptedKeys) := by
  obtain ⟨c, v⟩ := ev
  simp only at hd
  by_cases h56 : c = 56
  · subst h56; rw [handleEvent_leftalt]
  · by_cases hm : IsModifier c = true
    · rw [handleEvent_modifier h c v h56 hm]
    · rw [Bool.not_eq_true] at hm
      by_cases hen : h.enabled = true
      · by_cases hv0 : v = 0
        · subst hv0; rw [handleEvent_release h c h56 hm hen]
          exact List.mem_erase_of_ne hd
        · by_cases hv1 : v = 1
          · subst hv1
            by_cases halt : (UpdateFromEvent h.keyState ⟨c, 1⟩).leftAlt = true
            · rw [handleEvent_press_alt h c h56 hm hen halt]
              repeat' split
              all_goals
                first
                | rfl
                | (rw [executeMapping_keys]; exact mem_insertKey_ne _ _ _ hd)
            · rw [Bool.not_eq_true] at halt
              cases hdk : h.lookup.activeDeadKey with
              | none => rw [handleEvent_press_plain h c h56 hm hen halt hdk]
              | some dk =>
                rw [handleEvent_press_deadkey h c h56 hm hen halt (by simp [hdk])]
                rcases handleDeadKeyCombo_keys
                  { h with keyState := UpdateFromEvent h.keyState ⟨c, 1⟩ } ⟨c, 1⟩ with hk | hk
                · rw [hk]
                · rw [hk]; exact mem_insertKey_ne _ _ _ hd
          · rw [handleEvent_repeat h c v h56 hm hen hv0 hv1]
      · rw [Bool.not_eq_true] at hen
        rw [handleEvent_disabled h c v h56 hm hen]

/-- handleEvent preserves distinctness of the intercepted set. -/
theorem handleEvent_nodup (h : Handler) (ev : KeyEvent)
    (hnd : h.interceptedKeys.Nodup) :
    (handleEvent h ev).1.interceptedKeys.Nodup := by
  obtain ⟨c, v⟩ := ev
  by_cases h56 : c = 56
  · subst h56; rw [handleEvent_leftalt]; exact hnd
  · by_cases hm : IsModifier c = true
    · rw [handleEvent_modifier h c v h56 hm]; exact hnd
    · rw [Bool.not_eq_true] at hm
      by_cases hen : h.enabled = true
      · by_cases hv0 : v = 0
        · subst hv0; rw [handleEvent_release h c h56 hm hen]
          exact hnd.erase c
        · by_cases hv1 : v = 1
          · subst hv1
            by_cases halt : (UpdateFromEvent h.keyState ⟨c, 1⟩).leftAlt = true
            · rw [handleEvent_press_alt h c h56 hm hen halt]
              repeat' split
              all_goals
                first
                | exact hnd
                | (rw [executeMapping_keys]; exact nodup_insertKey _ _ hnd)
            · rw [Bool.not_eq_true] at halt
              cases hdk : h.lookup.activeDeadKey with
              | none => rw [handleEvent_press_plain h c h56 hm hen halt hdk]; exact hnd
              | some dk =>
                rw [handleEvent_press_deadkey h c h56 hm hen halt (by simp [hdk])]
                rcases handleDeadKeyCombo_keys
                  { h with keyState := UpdateFromEvent h.keyState ⟨c, 1⟩ } ⟨c, 1⟩ with hk | hk
                · rw [hk]; exact hnd
                · rw [hk]; exact nodup_insertKey _ _ hnd
          · rw [handleEvent_repeat h c v h56 hm hen hv0 hv1]; exact hnd
      · rw [Bool.not_eq_true] at hen
        rw [handleEvent_disabled h c v h56 hm hen]; exact hnd

/-- Processing any event list never changes the enabled flag. -/
theorem processEvents_enabled (evs : List KeyEvent) (h : Handler) :
    (processEvents h evs).1.enabled = h.enabled := by
  induction evs generalizing h with
  | nil => rfl
  | cons ev evs ih =>
    show (processEvents (handleEvent h ev).1 evs).1.enabled = h.enabled
    rw [ih, handleEvent_enabled]

/-- Processing any event list preserves distinctness of the intercepted
set. -/
theorem processEvents_nodup (evs : List KeyEvent) (h : Handler)
    (hnd : h.interceptedKeys.Nodup) :
    (processEvents h evs).1.interceptedKeys.Nodup := by
  induction evs generalizing h with
  | nil => exact hnd
  | cons ev evs ih =>
    exact ih (handleEvent h ev).1 (handleEvent_nodup h ev hnd)

/-- Processing events that never mention a code leaves that code's
membership in the intercepted set unchanged. -/
theorem processEvents_mem_ne (evs : List KeyEvent) (h : Handler) (d : Nat)
    (hd : ∀ ev ∈ evs, ev.code ≠ d) :
    (d ∈ (processEvents h evs).1.interceptedKeys ↔ d ∈ h.interceptedKeys) := by
  induction evs generalizing h with
  | nil => exact Iff.rfl
  | cons ev evs ih =>
    have h1 := handleEvent_mem_ne h ev d (fun hc => hd ev (by simp) hc.symm)
    have h2 := ih (handleEvent h ev).1 (fun e he => hd e (by simp [he]))
    exact h2.trans h1

/-- Sample acute-accent dead key (from the azerty-mac layout data). -/
def dkAcute : DeadKey := { base := "´", combinations := [("e", "é"), ("a", "á")] }

/-- Sample grave-accent dead key. -/
def dkGrave : DeadKey := { base := "`", combinations := [("e", "è"), ("a", "à")] }

/-- A small sample layout lookup for concrete runs. -/
def sampleLookup : KeyLookup :=
  { deadKeys := [("acute", dkAcute), ("grave", dkGrave)]
    altMap := [("5", { passthrough := "5" }),
               ("e", { isDeadKey := true, deadKeyID := "acute", char := "´" }),
               ("o", { char := "ø" })]
    shiftAltMap := [("5", { passthrough := "5" })]
    activeDeadKey := none }

/-- A fresh enabled handler over the sample layout. -/
def sampleHandler : Handler :=
  { lookup := sampleLookup, keyState := {}, enabled := true, interceptedKeys := [] }

/-- A handler that has intercepted the press of code 30. -/
def interceptedHandler : Handler :=
  { sampleHandler with interceptedKeys := [30] }

/-- C1: any event on the trigger key code 56 (left Alt) — press, release
or repeat, enabled or disabled — produces no synthetic output at all. -/
theorem claim_C1 (h : Handler) (v : Int) :
    (handleEvent h ⟨56, v⟩).2 = [] := by
  rw [handleEvent_leftalt]

/-- C6: any recognised modifier other than left Alt is forwarded
unchanged — for every handler state, hence independent of the enabled
flag, the trigger state, any armed dead key and the mapping tables —
and the rest of the handler state is untouched. -/
theorem claim_C6 (h : Handler) (c : Nat) (v : Int)
    (hm : IsModifier c = true) (hc : c ≠ 56) :
    handleEvent h ⟨c, v⟩ =
      ({ h with keyState := UpdateFromEvent h.keyState ⟨c, v⟩ },
       [Out.forward c v]) :=
  handleEvent_modifier h c v hc hm

/-- Witness for C6 at right Shift (code 42), pressed. -/
theorem claim_C6_witness :
    IsModifier 42 = true ∧ (42 : Nat) ≠ 56 ∧
    (handleEvent sampleHandler ⟨42, 1⟩).2 = [Out.forward 42 1] :=
  ⟨by decide, by decide,
   by rw [claim_C6 sampleHandler 42 1 (by decide) (by decide)]⟩

/-- C9: arming with a defined dead-key id replaces whatever accent was
armed (last-wins); arming with an undefined id leaves the whole lookup
state — including a previously armed accent — exactly as it was. -/
theorem claim_C9 (kl : KeyLookup) (id : String) :
    (∀ dk, lookupA kl.deadKeys id = some dk →
      SetDeadKey kl id = { kl with activeDeadKey := some dk }) ∧
    (lookupA kl.deadKeys id = none → SetDeadKey kl id = kl) := by
  constructor
  · intro dk hdk; unfold SetDeadKey; rw [hdk]
  · intro hdk; unfold SetDeadKey; rw [hdk]

/-- Witness for C9: re-arming an armed lookup replaces the accent, and
an unknown id leaves the armed accent in place. -/
theorem claim_C9_witness :
    SetDeadKey { sampleLookup with activeDeadKey := some dkGrave } "acute" =
      { sampleLookup with activeDeadKey := some dkAcute } ∧
    SetDeadKey { sampleLookup with activeDeadKey := some dkGrave } "circum" =
      { sampleLookup with activeDeadKey := some dkGrave } :=
  ⟨(claim_C9 { sampleLookup with activeDeadKey := some dkGrave } "acute").1 dkAcute rfl,
   (claim_C9 { sampleLookup with activeDeadKey := some dkGrave } "circum").2 rfl⟩

/-- C10: if a code sits in the intercepted set (its press was intercepted
while enabled) and the engine is disabled before the release arrives, the
release is forwarded unchanged and the code stays in the set: the
swallow/pairing guarantee needs the flag enabled for the whole cycle. -/
theorem claim_C10 (h : Handler) (c : Nat)
    (_hen : h.enabled = true) (hc : c ≠ 56) (hm : IsModifier c = false)
    (hmem : c ∈ h.interceptedKeys) :
    (handleEvent (SetEnabled h false) ⟨c, 0⟩).2 = [Out.forward c 0] ∧
    c ∈ (handleEvent (SetEnabled h false) ⟨c, 0⟩).1.interceptedKeys ∧
    (handleEvent (SetEnabled h false) ⟨c, 0⟩).1.interceptedKeys =
      h.interceptedKeys := by
  rw [handleEvent_disabled (SetEnabled h false) c 0 hc hm rfl]
  exact ⟨rfl, hmem, rfl⟩

/-- Witness for C10 at code 30 in the intercepted set. -/
theorem claim_C10_witness :
    interceptedHandler.enabled = true ∧ (30 : Nat) ≠ 56 ∧
    IsModifier 30 = false ∧ 30 ∈ interceptedHandler.interceptedKeys ∧
    (handleEvent (SetEnabled interceptedHandler false) ⟨30, 0⟩).2 =
      [Out.forward 30 0] :=
  ⟨rfl, by decide, by decide, by decide,
   (claim_C10 interceptedHandler 30 rfl (by decide) (by decide) (by decide)).1⟩

/-- An enabled press of an unmapped (or unnamed) non-modifier key with no
armed dead key is forwarded unchanged, whether or not the trigger is
held, and the handler state changes only in the tracked key state. -/
theorem handleEvent_press_unmapped (h : Handler) (c : Nat)
    (hen : h.enabled = true)
    (hdk : h.lookup.activeDeadKey = none)
    (hc : c ≠ 56) (hm : IsModifier c = false)
    (habs : ∀ name, KeyCodeToName c = some name →
      LookupAlt h.lookup name = none ∧ LookupShiftAlt h.lookup name = none) :
    handleEvent h ⟨c, 1⟩ =
      ({ h with keyState := UpdateFromEvent h.keyState ⟨c, 1⟩ },
       [Out.forward c 1]) := by
  by_cases halt : (UpdateFromEvent h.keyState ⟨c, 1⟩).leftAlt = true
  · rw [handleEvent_press_alt h c hc hm hen halt]
    cases hkn : KeyCodeToName c with
    | none => rfl
    | some name =>
      obtain ⟨ha, hsa⟩ := habs name hkn
      cases hs : ShiftPressed (UpdateFromEvent h.keyState ⟨c, 1⟩) <;>
        simp [hs, ha, hsa]
  · rw [Bool.not_eq_true] at halt
    exact handleEvent_press_plain h c hc hm hen halt hdk

/-- C7: with the engine enabled and no armed dead key, a press then
release of a non-modifier, non-trigger code absent from both tables
(unnamed codes included) that is not already intercepted yields exactly
one forwarded press and one forwarded release, value-identical to the
input, whatever the trigger (and other modifier) state. -/
theorem claim_C7 (h : Handler) (c : Nat)
    (hen : h.enabled = true)
    (hdk : h.lookup.activeDeadKey = none)
    (hc : c ≠ 56) (hm : IsModifier c = false)
    (habs : ∀ name, KeyCodeToName c = some name →
      LookupAlt h.lookup name = none ∧ LookupShiftAlt h.lookup name = none)
    (hni : c ∉ h.interceptedKeys) :
    (processEvents h [⟨c, 1⟩, ⟨c, 0⟩]).2 =
      [Out.forward c 1, Out.forward c 0] := by
  have hstep1 := handleEvent_press_unmapped h c hen hdk hc hm habs
  have hcont : h.interceptedKeys.contains c = false := by
    simpa using hni
  have hstep2 := handleEvent_release
    { h with keyState := UpdateFromEvent h.keyState ⟨c, 1⟩ } c hc hm hen
  simp only [processEvents, hstep1, hstep2, hcont]
  simp

/-- Witness for C7 at code 44 ("z"), absent from both sample tables. -/
theorem claim_C7_witness :
    sampleHandler.enabled = true ∧ IsModifier 44 = false ∧
    44 ∉ sampleHandler.interceptedKeys ∧
    (processEvents sampleHandler [⟨44, 1⟩, ⟨44, 0⟩]).2 =
      [Out.forward 44 1, Out.forward 44 0] :=
  ⟨rfl, by decide, by decide,
   claim_C7 sampleHandler 44 rfl rfl (by decide) (by decide)
     (fun name hn => by
        have hz : name = "z" := by simpa [KeyCodeToName] using hn.symm
        subst hz; exact ⟨rfl, rfl⟩)
     (by decide)⟩

/-- Draining the intercepted set: with the engine enabled, processing the
release of every code currently in the set (all non-trigger,
non-modifier) empties it, each release being swallowed. -/
theorem releases_drain (S : List Nat) : ∀ (h : Handler),
    h.enabled = true → h.interceptedKeys = S → S.Nodup →
    (∀ c ∈ S, c ≠ 56 ∧ IsModifier c = false) →
    (processEvents h (S.map (fun c => ⟨c, 0⟩))).1.interceptedKeys = [] := by
  induction S with
  | nil =>
    intro h _ hkeys _ _
    simpa [processEvents] using hkeys
  | cons c S ih =>
    intro h hen hkeys hnd hok
    have hc := hok c (by simp)
    have hstep := handleEvent_release h c hc.1 hc.2 hen
    simp only [List.map, processEvents]
    rw [hstep]
    apply ih
    · exact hen
    · rw [hkeys, List.erase_cons_head]
    · exact (List.nodup_cons.mp hnd).2
    · exact fun d hd => hok d (by simp [hd])

/-- C2: with the engine enabled and a duplicate-free intercepted set,
(a) the release of an intercepted code — even after arbitrary interleaved
events on other codes — produces no output, removes exactly that code,
and leaves every other code's membership unchanged; (b) one step keeps
the set duplicate-free (a code is never present twice); (c) processing
every intercepted code's release empties the set. -/
theorem claim_C2 (h : Handler)
    (hen : h.enabled = true) (hnd : h.interceptedKeys.Nodup) :
    (∀ (c : Nat) (mid : List KeyEvent),
      c ≠ 56 → IsModifier c = false → c ∈ h.interceptedKeys →
      (∀ ev ∈ mid, ev.code ≠ c) →
      ((handleEvent (processEvents h mid).1 ⟨c, 0⟩).2 = [] ∧
       c ∉ (handleEvent (processEvents h mid).1 ⟨c, 0⟩).1.interceptedKeys ∧
       (∀ d, d ≠ c →
         ((d ∈ (handleEvent (processEvents h mid).1 ⟨c, 0⟩).1.interceptedKeys) ↔
          d ∈ (processEvents h mid).1.interceptedKeys)))) ∧
    (∀ ev : KeyEvent, (handleEvent h ev).1.interceptedKeys.Nodup) ∧
    ((∀ c ∈ h.interceptedKeys, c ≠ 56 ∧ IsModifier c = false) →
      (processEvents h (h.interceptedKeys.map (fun c => ⟨c, 0⟩))).1.interceptedKeys
        = []) := by
  refine ⟨?_, fun ev => handleEvent_nodup h ev hnd, ?_⟩
  · intro c mid hc hm hcmem hmid
    have hen1 : (processEvents h mid).1.enabled = true := by
      rw [processEvents_enabled]; exact hen
    have hmem1 : c ∈ (processEvents h mid).1.interceptedKeys :=
      (processEvents_mem_ne mid h c hmid).mpr hcmem
    have hnd1 : (processEvents h mid).1.interceptedKeys.Nodup :=
      processEvents_nodup mid h hnd
    have hstep := handleEvent_release (processEvents h mid).1 c hc hm hen1
    rw [hstep]
    have hcont : (processEvents h mid).1.interceptedKeys.contains c = true := by
      simpa using hmem1
    refine ⟨by simp [hcont, hmem1], hnd1.not_mem_erase, ?_⟩
    intro d hd
    exact List.mem_erase_of_ne hd
  · intro hok
    exact releases_drain h.interceptedKeys h hen rfl hnd hok

/-- A handler with two intercepted codes, for the C2 witness. -/
def twoInterceptedHandler : Handler :=
  { sampleHandler with interceptedKeys := [30, 31] }

/-- Witness for C2: with codes 30 and 31 intercepted, an interleaved
unrelated press does not disturb the swallowed release of 30, and
releasing every intercepted code empties the set. -/
theorem claim_C2_witness :
    twoInterceptedHandler.enabled = true ∧
    twoInterceptedHandler.interceptedKeys.Nodup ∧
    (handleEvent (processEvents twoInterceptedHandler [⟨44, 1⟩]).1 ⟨30, 0⟩).2
      = [] ∧
    (processEvents twoInterceptedHandler
      (twoInterceptedHandler.interceptedKeys.map (fun c => ⟨c, 0⟩))).1.interceptedKeys
      = [] :=
  ⟨rfl, by decide,
   ((claim_C2 twoInterceptedHandler rfl (by decide)).1 30 [⟨44, 1⟩]
     (by decide) (by decide) (by decide) (by decide)).1,
   (claim_C2 twoInterceptedHandler rfl (by decide)).2.2 (by decide)⟩

/-- An enabled non-modifier press with the trigger up and no armed dead
key is forwarded unchanged (helper for the post-composition state). -/
theorem press_ordinary (h : Handler) (c : Nat) (hc : c ≠ 56)
    (hm : IsModifier c = false) (hen : h.enabled = true)
    (halt : h.keyState.leftAlt = false)
    (hdk : h.lookup.activeDeadKey = none) :
    (handleEvent h ⟨c, 1⟩).2 = [Out.forward c 1] := by
  have upd := UpdateFromEvent_nonmod h.keyState ⟨c, 1⟩ hm
  rw [handleEvent_press_plain h c hc hm hen (by rw [upd]; exact halt) hdk]

/-- The composer result for a key after an armed accent: the combination
when the name hits, otherwise base glyph plus the pressed key's name. -/
def deadKeyResult (dk : DeadKey) (name : String) : String :=
  match lookupA dk.combinations name with
  | some combined => combined
  | none => dk.base ++ name

/-- With an armed accent, handleEvent on a named press disarms, marks the
code intercepted and types the composition result as one string. -/
theorem handleEvent_armed_named (h : Handler) (dk : DeadKey) (c : Nat)
    (name : String)
    (hen : h.enabled = true)
    (harm : h.lookup.activeDeadKey = some dk)
    (halt : h.keyState.leftAlt = false)
    (hc : c ≠ 56) (hm : IsModifier c = false)
    (hkn : KeyCodeToName c = some name) :
    handleEvent h ⟨c, 1⟩ =
      ({ lookup := { h.lookup with activeDeadKey := none },
         keyState := UpdateFromEvent h.keyState ⟨c, 1⟩,
         enabled := h.enabled,
         interceptedKeys := insertKey h.interceptedKeys c },
       [Out.typeStringOut (deadKeyResult dk name)]) := by
  have upd := UpdateFromEvent_nonmod h.keyState ⟨c, 1⟩ hm
  have hstep := handleEvent_press_deadkey h c hc hm hen
    (by rw [upd]; exact halt) (by simp [harm])
  rw [hstep]
  simp only [handleDeadKeyCombo, hkn, ApplyDeadKey, harm, deadKeyResult]
  cases hcomb : lookupA dk.combinations name <;> simp [hcomb]

/-- With an armed accent, handleEvent on an unnamed press disarms and
forwards the raw event, leaving the intercepted set alone. -/
theorem handleEvent_armed_unnamed (h : Handler) (dk : DeadKey) (c : Nat)
    (hen : h.enabled = true)
    (harm : h.lookup.activeDeadKey = some dk)
    (halt : h.keyState.leftAlt = false)
    (hc : c ≠ 56) (hm : IsModifier c = false)
    (hkn : KeyCodeToName c = none) :
    handleEvent h ⟨c, 1⟩ =
      ({ lookup := { h.lookup with activeDeadKey := none },
         keyState := UpdateFromEvent h.keyState ⟨c, 1⟩,
         enabled := h.enabled,
         interceptedKeys := h.interceptedKeys },
       [Out.forward c 1]) := by
  have upd := UpdateFromEvent_nonmod h.keyState ⟨c, 1⟩ hm
  have hstep := handleEvent_press_deadkey h c hc hm hen
    (by rw [upd]; exact halt) (by simp [harm])
  rw [hstep]
  simp only [handleDeadKeyCombo, hkn, ClearDeadKey]

/-- C3: dead key armed, trigger up, engine enabled: a named press disarms,
is marked intercepted, and types (as one Unicode string) the combination
on a hit or base glyph plus the pressed key's character on a miss; an
unnamed press disarms and is forwarded unchanged; afterwards the very
next press is treated as ordinary (exactly one attempt per arm cycle). -/
theorem claim_C3 (h : Handler) (dk : DeadKey) (c : Nat)
    (hen : h.enabled = true)
    (harm : h.lookup.activeDeadKey = some dk)
    (halt : h.keyState.leftAlt = false)
    (hc : c ≠ 56) (hm : IsModifier c = false) :
    (∀ name, KeyCodeToName c = some name →
      ((handleEvent h ⟨c, 1⟩).1.lookup.activeDeadKey = none ∧
       c ∈ (handleEvent h ⟨c, 1⟩).1.interceptedKeys ∧
       (handleEvent h ⟨c, 1⟩).2 = [Out.typeStringOut (deadKeyResult dk name)] ∧
       (∀ c2, c2 ≠ 56 → IsModifier c2 = false →
         (handleEvent (handleEvent h ⟨c, 1⟩).1 ⟨c2, 1⟩).2 =
           [Out.forward c2 1]))) ∧
    (KeyCodeToName c = none →
      ((handleEvent h ⟨c, 1⟩).1.lookup.activeDeadKey = none ∧
       (handleEvent h ⟨c, 1⟩).2 = [Out.forward c 1] ∧
       (handleEvent h ⟨c, 1⟩).1.interceptedKeys = h.interceptedKeys)) := by
  constructor
  · intro name hkn
    have hfull := handleEvent_armed_named h dk c name hen harm halt hc hm hkn
    rw [hfull]
    refine ⟨rfl, mem_insertKey_self _ _, rfl, ?_⟩
    intro c2 hc2 hm2
    refine press_ordinary _ c2 hc2 hm2 ?_ ?_ ?_
    · exact hen
    · show (UpdateFromEvent h.keyState ⟨c, 1⟩).leftAlt = false
      rw [UpdateFromEvent_nonmod h.keyState ⟨c, 1⟩ hm]
      exact halt
    · rfl
  · intro hkn
    have hfull := handleEvent_armed_unnamed h dk c hen harm halt hc hm hkn
    rw [hfull]
    exact ⟨rfl, rfl, rfl⟩

/-- A handler with the acute dead key armed, for the C3 witness. -/
def armedHandler : Handler :=
  { sampleHandler with lookup := { sampleLookup with activeDeadKey := some dkAcute } }

/-- Witness for C3: armed acute; "e" (code 18) hits and types the
combination, "x" (code 45) misses and types base plus character, and an
unnamed code (1) is forwarded. -/
theorem claim_C3_witness :
    armedHandler.enabled = true ∧
    armedHandler.lookup.activeDeadKey = some dkAcute ∧
    armedHandler.keyState.leftAlt = false ∧
    (handleEvent armedHandler ⟨18, 1⟩).2 = [Out.typeStringOut "é"] ∧
    (handleEvent armedHandler ⟨45, 1⟩).2 = [Out.typeStringOut "´x"] ∧
    (handleEvent armedHandler ⟨1, 1⟩).2 = [Out.forward 1 1] :=
  ⟨rfl, rfl, rfl,
   ((claim_C3 armedHandler dkAcute 18 rfl rfl rfl (by decide) (by decide)).1
     "e" rfl).2.2.1,
   ((claim_C3 armedHandler dkAcute 45 rfl rfl rfl (by decide) (by decide)).1
     "x" rfl).2.2.1,
   ((claim_C3 armedHandler dkAcute 1 rfl rfl rfl (by decide) (by decide)).2
     rfl).2.1⟩

/-- The physical key code carrying a decimal digit (uinput Key0..Key9). -/
def digitKeyCode (k : Nat) : Nat :=
  match k with
  | 0 => 11 | 1 => 2 | 2 => 3 | 3 => 4 | 4 => 5
  | 5 => 6 | 6 => 7 | 7 => 8 | 8 => 9 | 9 => 10
  | _ => 0

/-- The fixed AZERTY physical position typing hex letter k (10..15). -/
def hexLetterKeyCode (k : Nat) : Nat :=
  match k with
  | 10 => 16 | 11 => 48 | 12 => 46 | 13 => 32 | 14 => 18 | 15 => 33
  | _ => 0

/-- The write sequence one hex digit must produce when all writes
succeed: digits are tapped inside a Shift press/release pair, letters
a-f are tapped bare at their fixed positions. -/
def expectedHexOps (k : Nat) : List Entry :=
  if k ≤ 9 then
    [⟨.down 42, true⟩, ⟨.down (digitKeyCode k), true⟩,
     ⟨.up (digitKeyCode k), true⟩, ⟨.up 42, true⟩]
  else
    [⟨.down (hexLetterKeyCode k), true⟩, ⟨.up (hexLetterKeyCode k), true⟩]

/-- Every entry of hexNats is a hex digit. -/
theorem hexNats_lt (n : Nat) : ∀ k ∈ hexNats n, k < 16 := by
  induction n using Nat.strong_induction_on with
  | _ n ih =>
    rw [hexNats]
    split
    · intro k hk
      simp only [List.mem_singleton] at hk
      omega
    · intro k hk
      simp only [List.mem_append, List.mem_singleton] at hk
      rcases hk with hk | hk
      · exact ih (n / 16) (Nat.div_lt_self (by omega) (by omega)) k hk
      · subst hk; exact Nat.mod_lt _ (by omega)

/-- One hex digit types successfully under the all-success oracle. -/
theorem typeHexChar_fst (k : Nat) (hk : k < 16) (n : Nat) :
    (typeHexChar allOk n (Nat.digitChar k)).1 = true := by
  interval_cases k <;> rfl

/-- One hex digit produces exactly its expected write sequence under the
all-success oracle. -/
theorem typeHexChar_log (k : Nat) (hk : k < 16) (n : Nat) :
    (typeHexChar allOk n (Nat.digitChar k)).2.1 = expectedHexOps k := by
  interval_cases k <;> rfl

/-- The hex digit loop succeeds under the all-success oracle. -/
theorem typeHexLoop_fst (ks : List Nat) (hks : ∀ k ∈ ks, k < 16) :
    ∀ n, (typeHexLoop allOk n (ks.map Nat.digitChar)).1 = true := by
  induction ks with
  | nil => intro n; rfl
  | cons k ks ih =>
    intro n
    have hk := hks k (by simp)
    have h1 := typeHexChar_fst k hk n
    simp only [List.map, typeHexLoop]
    rcases hr : typeHexChar allOk n (Nat.digitChar k) with ⟨ok1, l1, n1⟩
    rw [hr] at h1
    simp only at h1
    subst h1
    simpa using ih (fun d hd => hks d (by simp [hd])) n1

/-- The hex digit loop produces the concatenation of the per-digit
expected sequences under the all-success oracle. -/
theorem typeHexLoop_log (ks : List Nat) (hks : ∀ k ∈ ks, k < 16) :
    ∀ n, (typeHexLoop allOk n (ks.map Nat.digitChar)).2.1 =
      ks.flatMap expectedHexOps := by
  induction ks with
  | nil => intro n; rfl
  | cons k ks ih =>
    intro n
    have hk := hks k (by simp)
    have h1 := typeHexChar_fst k hk n
    have h2 := typeHexChar_log k hk n
    simp only [List.map, typeHexLoop, List.flatMap_cons]
    rcases hr : typeHexChar allOk n (Nat.digitChar k) with ⟨ok1, l1, n1⟩
    rw [hr] at h1 h2
    simp only at h1 h2
    subst h1
    subst h2
    simpa using ih (fun d hd => hks d (by simp [hd])) n1

/-- C4: under the all-success oracle, TypeUnicode emits exactly: Ctrl
down, Shift down, U tap, Shift up, Ctrl up; then for each lowercase hex
digit of the codepoint in order the expected translation (digits inside
a Shift press/release pair, letters a-f bare at fixed positions); then a
Space tap — for every scalar. -/
theorem claim_C4 (r : Nat) (n : Nat) :
    (TypeUnicode allOk n r).1 = true ∧
    (TypeUnicode allOk n r).2.1 =
      [⟨.down 29, true⟩, ⟨.down 42, true⟩, ⟨.down 22, true⟩, ⟨.up 22, true⟩,
       ⟨.up 42, true⟩, ⟨.up 29, true⟩]
      ++ (hexNats r).flatMap expectedHexOps
      ++ [⟨.down 57, true⟩, ⟨.up 57, true⟩] := by
  have hlt := hexNats_lt r
  have hf := typeHexLoop_fst (hexNats r) hlt
  have hl := typeHexLoop_log (hexNats r) hlt
  constructor <;>
    simp [TypeUnicode, keyDown, keyUp, keyPress, allOk, hexChars, hf, hl,
      KEY_LEFTCTRL, KEY_LEFTSHIFT]

/-- A successful association-list lookup returns one of the stored
values. -/
theorem lookupA_mem {α : Type} (l : List (String × α)) (s : String) (v : α)
    (h : lookupA l s = some v) : v ∈ l.map Prod.snd := by
  induction l with
  | nil => cases h
  | cons p rest ih =>
    unfold lookupA at h
    split at h
    · injection h with h; subst h; simp
    · simpa using Or.inr (ih h)

/-- Every code in the name table is a non-modifier, and never the
trigger. -/
theorem NameToKeyCode_nonmod (s : String) (k : Nat)
    (h : NameToKeyCode s = some k) : IsModifier k = false ∧ k ≠ 56 := by
  have hv : k ∈ nameCodePairs.map Prod.snd := lookupA_mem _ _ _ h
  have hall : ∀ v ∈ nameCodePairs.map Prod.snd,
      IsModifier v = false ∧ v ≠ 56 := by decide
  exact hall k hv

/-- Component equations for keyDown. -/
theorem keyDown_fst (o : Oracle) (n c : Nat) : (keyDown o n c).1 = o n := rfl

/-- The log of a single key-down attempt. -/
theorem keyDown_log (o : Oracle) (n c : Nat) :
    (keyDown o n c).2.1 = [⟨.down c, o n⟩] := rfl

/-- The next write index after a key-down attempt. -/
theorem keyDown_idx (o : Oracle) (n c : Nat) : (keyDown o n c).2.2 = n + 1 := rfl

/-- Component equations for keyUp. -/
theorem keyUp_fst (o : Oracle) (n c : Nat) : (keyUp o n c).1 = o n := rfl

/-- The log of a single key-up attempt. -/
theorem keyUp_log (o : Oracle) (n c : Nat) :
    (keyUp o n c).2.1 = [⟨.up c, o n⟩] := rfl

/-- The next write index after a key-up attempt. -/
theorem keyUp_idx (o : Oracle) (n c : Nat) : (keyUp o n c).2.2 = n + 1 := rfl

/-- Success of a tap: both of its writes succeed. -/
theorem keyPress_fst (o : Oracle) (n c : Nat) :
    (keyPress o n c).1 = (o n && o (n + 1)) := by
  unfold keyPress keyDown keyUp
  cases hb : o n <;> simp [hb]

/-- The log of a tap: the down attempt, then the up attempt when the
down succeeded. -/
theorem keyPress_log (o : Oracle) (n c : Nat) :
    (keyPress o n c).2.1 =
      if o n = false then [⟨.down c, false⟩]
      else [⟨.down c, true⟩, ⟨.up c, o (n + 1)⟩] := by
  unfold keyPress keyDown keyUp
  cases hb : o n <;> simp [hb]

/-- The next write index after a tap. -/
theorem keyPress_idx (o : Oracle) (n c : Nat) :
    (keyPress o n c).2.2 = if o n = false then n + 1 else n + 2 := by
  unfold keyPress keyDown keyUp
  cases hb : o n <;> simp [hb]

/-- Every write of PassthroughWithRAlt, under any oracle, touches only
right Alt or the target key. -/
theorem PassthroughWithRAlt_codes (o : Oracle) (n k : Nat) :
    ∀ e ∈ (PassthroughWithRAlt o n k).2.1,
      e.op.code = 100 ∨ e.op.code = k := by
  simp only [PassthroughWithRAlt, keyDown_fst, keyDown_log, keyDown_idx,
    keyUp_fst, keyUp_log, keyUp_idx, keyPress_fst, keyPress_log, keyPress_idx,
    KEY_RIGHTALT]
  split_ifs <;> intro e he <;>
    simp only [List.mem_append, List.mem_singleton, List.cons_append,
      List.nil_append, List.mem_cons, List.not_mem_nil, or_false] at he <;>
    rcases he with rfl | rfl | rfl | rfl <;> simp [KOp.code]

/-- With Shift already user-held, every write of PassthroughWithShiftRAlt,
under any oracle, touches only right Alt or the target key — never
Shift. -/
theorem PassthroughWithShiftRAlt_codes_held (o : Oracle) (n k : Nat) :
    ∀ e ∈ (PassthroughWithShiftRAlt o n k true).2.1,
      e.op.code = 100 ∨ e.op.code = k := by
  simp only [PassthroughWithShiftRAlt, keyDown_fst, keyDown_log, keyDown_idx,
    keyUp_fst, keyUp_log, keyUp_idx, keyPress_fst, keyPress_log, keyPress_idx,
    KEY_RIGHTALT, if_true, ite_true]
  split_ifs <;> intro e he <;>
    simp only [List.mem_append, List.mem_singleton, List.cons_append,
      List.nil_append, List.mem_cons, List.not_mem_nil, or_false,
      List.append_nil] at he <;>
    rcases he with rfl | rfl | rfl | rfl <;> simp [KOp.code]

/-- C5: a passthrough mapping resolves its target and dispatches exactly
one right-Alt injection (the Shift-preserving variant when the user
holds Shift); the device sequence is strictly right-Alt down, target
down, target up, right-Alt up; no write ever touches left Alt (code 56),
and with Shift user-held no write ever touches Shift (code 42) under any
oracle; an unknown target name produces no output at all. -/
theorem claim_C5 (h : Handler) (m : Mapping) (c k : Nat) (o : Oracle) (n : Nat)
    (hp : m.passthrough ≠ "") :
    (NameToKeyCode m.passthrough = none → executeMapping h m c = (h, [])) ∧
    (NameToKeyCode m.passthrough = some k →
      ((ShiftPressed h.keyState = false →
         executeMapping h m c = (h, [Out.passRAlt k])) ∧
       (ShiftPressed h.keyState = true →
         executeMapping h m c = (h, [Out.passShiftRAlt k true])) ∧
       (PassthroughWithRAlt allOk n k).2.1 =
         [⟨.down 100, true⟩, ⟨.down k, true⟩, ⟨.up k, true⟩, ⟨.up 100, true⟩] ∧
       (PassthroughWithShiftRAlt allOk n k true).2.1 =
         [⟨.down 100, true⟩, ⟨.down k, true⟩, ⟨.up k, true⟩, ⟨.up 100, true⟩] ∧
       (∀ e ∈ (PassthroughWithRAlt o n k).2.1, e.op.code ≠ 56) ∧
       (∀ e ∈ (PassthroughWithShiftRAlt o n k true).2.1,
         e.op.code ≠ 56 ∧ e.op.code ≠ 42))) := by
  constructor
  · intro hnone
    simp [executeMapping, hp, hnone]
  · intro hsome
    obtain ⟨hkm, hk56⟩ := NameToKeyCode_nonmod m.passthrough k hsome
    obtain ⟨_, _, hk42, _⟩ := IsModifier_false_ne hkm
    refine ⟨?_, ?_, rfl, rfl, ?_, ?_⟩
    · intro hs; simp [executeMapping, hp, hsome, hs]
    · intro hs; simp [executeMapping, hp, hsome, hs]
    · intro e he
      rcases PassthroughWithRAlt_codes o n k e he with hce | hce <;>
        rw [hce] <;> [decide; exact hk56]
    · intro e he
      rcases PassthroughWithShiftRAlt_codes_held o n k e he with hce | hce <;>
        rw [hce]
      · exact ⟨by decide, by decide⟩
      · exact ⟨hk56, hk42⟩

/-- Witness for C5: the azerty Alt-"5" passthrough mapping resolves to
code 6 and yields the exact right-Alt tap sequence. -/
theorem claim_C5_witness :
    ({ passthrough := "5" } : Mapping).passthrough ≠ "" ∧
    NameToKeyCode "5" = some 6 ∧
    ShiftPressed sampleHandler.keyState = false ∧
    executeMapping sampleHandler { passthrough := "5" } 6 =
      (sampleHandler, [Out.passRAlt 6]) ∧
    (PassthroughWithRAlt allOk 0 6).2.1 =
      [⟨.down 100, true⟩, ⟨.down 6, true⟩, ⟨.up 6, true⟩, ⟨.up 100, true⟩] :=
  ⟨by decide, by decide, rfl,
   ((claim_C5 sampleHandler { passthrough := "5" } 6 6 allOk 0 (by decide)).2
     (by decide)).1 rfl,
   ((claim_C5 sampleHandler { passthrough := "5" } 6 6 allOk 0 (by decide)).2
     (by decide)).2.2.1⟩

/-- Best-effort cleanup check: every successful down of code m in the
log is followed, later in the log, by an attempted up of m. -/
def cleaned (m : Nat) : List Entry → Bool
  | [] => true
  | e :: rest =>
    (if e.op = KOp.down m ∧ e.ok = true
     then rest.any (fun e2 => e2.op = KOp.up m) else true)
    && cleaned m rest

/-- Cleanup check splits across concatenation when each part is clean on
its own. -/
theorem cleaned_append (m : Nat) (a b : List Entry)
    (ha : cleaned m a = true) (hb : cleaned m b = true) :
    cleaned m (a ++ b) = true := by
  induction a with
  | nil => simpa using hb
  | cons e a ih =>
    simp only [cleaned] at ha ⊢
    rw [Bool.and_eq_true] at ha
    obtain ⟨h1, h2⟩ := ha
    rw [Bool.and_eq_true]
    refine ⟨?_, ih h2⟩
    by_cases hcond : e.op = KOp.down m ∧ e.ok = true
    · rw [if_pos hcond] at h1
      rw [if_pos hcond]
      simp [List.append_eq, List.any_append, h1]
    · rw [if_neg hcond]

/-- A log with no down of code m is trivially clean for m. -/
theorem cleaned_of_no_down (m : Nat) (l : List Entry)
    (h : ∀ e ∈ l, e.op ≠ KOp.down m) : cleaned m l = true := by
  induction l with
  | nil => rfl
  | cons e rest ih =>
    unfold cleaned
    rw [if_neg (by intro hc; exact h e (by simp) hc.1),
      ih (fun e2 he2 => h e2 (by simp [he2]))]
    rfl

/-- A code bound on the ops of a log gives no-down for other codes. -/
theorem no_down_of_codes (m : Nat) (l : List Entry) (cs : List Nat)
    (hl : ∀ e ∈ l, e.op.code ∈ cs) (hm : m ∉ cs) :
    ∀ e ∈ l, e.op ≠ KOp.down m := by
  intro e he hc
  have := hl e he
  rw [hc] at this
  exact hm this

/-- Every write of a tap touches only the tapped code. -/
theorem keyPress_codes (o : Oracle) (n c : Nat) :
    ∀ e ∈ (keyPress o n c).2.1, e.op.code = c := by
  rw [keyPress_log]
  split_ifs <;> intro e he <;>
    simp only [List.mem_singleton, List.mem_cons, List.not_mem_nil, or_false] at he <;>
    rcases he with rfl | rfl <;> rfl

/-- Every write of typeWithShift touches only Shift or the tapped key. -/
theorem typeWithShift_codes (o : Oracle) (n k : Nat) :
    ∀ e ∈ (typeWithShift o n k).2.1, e.op.code = 42 ∨ e.op.code = k := by
  simp only [typeWithShift, keyDown_fst, keyDown_log, keyDown_idx,
    keyUp_fst, keyUp_log, keyUp_idx, keyPress_fst, keyPress_log, keyPress_idx,
    KEY_LEFTSHIFT]
  split_ifs <;> intro e he <;>
    simp only [List.mem_append, List.mem_singleton, List.cons_append,
      List.nil_append, List.mem_cons, List.not_mem_nil, or_false] at he <;>
    rcases he with rfl | rfl | rfl | rfl <;> simp [KOp.code]

/-- typeWithShift always leaves Shift clean: any Shift it pressed has a
later release attempt, even on failure paths. -/
theorem typeWithShift_cleaned (o : Oracle) (n k : Nat) :
    cleaned 42 (typeWithShift o n k).2.1 = true := by
  simp only [typeWithShift, keyDown_fst, keyDown_log, keyDown_idx,
    keyUp_fst, keyUp_log, keyUp_idx, keyPress_fst, keyPress_log, keyPress_idx,
    KEY_LEFTSHIFT]
  split_ifs <;> simp_all [cleaned]

/-- Cleanliness for a code never touched: two-code op bound. -/
theorem cleaned_of_two_codes (m a b : Nat) (l : List Entry)
    (hl : ∀ e ∈ l, e.op.code = a ∨ e.op.code = b) (ha : a ≠ m) (hb : b ≠ m) :
    cleaned m l = true := by
  apply cleaned_of_no_down
  intro e he hc
  rcases hl e he with h | h <;> rw [hc] at h <;> simp only [KOp.code] at h
  · exact ha h.symm
  · exact hb h.symm

/-- Cleanliness for a code never touched: one-code op bound. -/
theorem cleaned_of_one_code (m a : Nat) (l : List Entry)
    (hl : ∀ e ∈ l, e.op.code = a) (ha : a ≠ m) : cleaned m l = true := by
  apply cleaned_of_no_down
  intro e he hc
  have h := hl e he
  rw [hc] at h
  simp only [KOp.code] at h
  exact ha h.symm

/-- Each hex character write sequence is clean for Ctrl. -/
theorem typeHexChar_cleaned29 (o : Oracle) (n : Nat) (c : Char) :
    cleaned 29 (typeHexChar o n c).2.1 = true := by
  unfold typeHexChar
  split
  all_goals
    first
    | rfl
    | exact cleaned_of_two_codes 29 42 _ _ (typeWithShift_codes o n _)
        (by decide) (by decide)
    | exact cleaned_of_one_code 29 _ _ (keyPress_codes o n _) (by decide)

/-- Each hex character write sequence is clean for Shift. -/
theorem typeHexChar_cleaned42 (o : Oracle) (n : Nat) (c : Char) :
    cleaned 42 (typeHexChar o n c).2.1 = true := by
  unfold typeHexChar
  split
  all_goals
    first
    | rfl
    | exact typeWithShift_cleaned o n _
    | exact cleaned_of_one_code 42 _ _ (keyPress_codes o n _) (by decide)

/-- The hex digit loop is clean for a code when every single character
sequence is. -/
theorem typeHexLoop_cleaned (m : Nat) (cs : List Char)
    (hchar : ∀ (o' : Oracle) (n' : Nat) (c : Char),
      cleaned m (typeHexChar o' n' c).2.1 = true) :
    ∀ (o : Oracle) (n : Nat), cleaned m (typeHexLoop o n cs).2.1 = true := by
  induction cs with
  | nil => intro o n; rfl
  | cons c cs ih =>
    intro o n
    simp only [typeHexLoop]
    by_cases h1 : (typeHexChar o n c).1 = false
    · simp only [h1, if_true, ite_true]
      exact hchar o n c
    · simp only [h1, if_false, ite_false]
      exact cleaned_append m _ _ (hchar o n c) (ih o _)

/-- TypeUnicode always leaves Ctrl clean, under every oracle. -/
theorem TypeUnicode_cleaned29 (o : Oracle) (n r : Nat) :
    cleaned 29 (TypeUnicode o n r).2.1 = true := by
  have hloop := typeHexLoop_cleaned 29 (hexChars r) (typeHexChar_cleaned29) o
  simp only [TypeUnicode, keyDown_fst, keyDown_log, keyDown_idx, keyUp_fst,
    keyUp_log, keyUp_idx, keyPress_fst, keyPress_log, keyPress_idx,
    KEY_LEFTCTRL, KEY_LEFTSHIFT]
  split_ifs <;>
    simp_all [cleaned, KOp.code, cleaned_append, List.any_append]

/-- TypeUnicode always leaves Shift clean, under every oracle. -/
theorem TypeUnicode_cleaned42 (o : Oracle) (n r : Nat) :
    cleaned 42 (TypeUnicode o n r).2.1 = true := by
  have hloop := typeHexLoop_cleaned 42 (hexChars r) (typeHexChar_cleaned42) o
  simp only [TypeUnicode, keyDown_fst, keyDown_log, keyDown_idx, keyUp_fst,
    keyUp_log, keyUp_idx, keyPress_fst, keyPress_log, keyPress_idx,
    KEY_LEFTCTRL, KEY_LEFTSHIFT]
  split_ifs <;>
    simp_all [cleaned, KOp.code, cleaned_append, List.any_append]

/-- PassthroughWithRAlt always leaves right Alt clean, under every
oracle. -/
theorem PassthroughWithRAlt_cleaned100 (o : Oracle) (n k : Nat) :
    cleaned 100 (PassthroughWithRAlt o n k).2.1 = true := by
  simp only [PassthroughWithRAlt, keyDown_fst, keyDown_log, keyDown_idx,
    keyUp_fst, keyUp_log, keyUp_idx, keyPress_fst, keyPress_log, keyPress_idx,
    KEY_RIGHTALT]
  split_ifs <;> simp_all [cleaned, KOp.code]

/-- PassthroughWithShiftRAlt always leaves right Alt clean, under every
oracle, for both Shift modes. -/
theorem PassthroughWithShiftRAlt_cleaned100 (o : Oracle) (n k : Nat)
    (sad : Bool) :
    cleaned 100 (PassthroughWithShiftRAlt o n k sad).2.1 = true := by
  cases sad <;>
    simp only [PassthroughWithShiftRAlt, keyDown_fst, keyDown_log, keyDown_idx,
      keyUp_fst, keyUp_log, keyUp_idx, keyPress_fst, keyPress_log, keyPress_idx,
      KEY_RIGHTALT, KEY_LEFTSHIFT, if_true, if_false, ite_true, ite_false,
      Bool.false_eq_true] <;>
    split_ifs <;> simp_all [cleaned, KOp.code]

/-- PassthroughWithShiftRAlt always leaves Shift clean, under every
oracle, for both Shift modes. -/
theorem PassthroughWithShiftRAlt_cleaned42 (o : Oracle) (n k : Nat)
    (sad : Bool) :
    cleaned 42 (PassthroughWithShiftRAlt o n k sad).2.1 = true := by
  cases sad <;>
    simp only [PassthroughWithShiftRAlt, keyDown_fst, keyDown_log, keyDown_idx,
      keyUp_fst, keyUp_log, keyUp_idx, keyPress_fst, keyPress_log, keyPress_idx,
      KEY_RIGHTALT, KEY_LEFTSHIFT, if_true, if_false, ite_true, ite_false,
      Bool.false_eq_true] <;>
    split_ifs <;> simp_all [cleaned, KOp.code]

/-- An oracle whose second write fails, for the C8 witness. -/
def failSecond : Oracle := fun i => i != 1

/-- C8: whenever a multi-step injection sequence fails, every modifier
it pressed successfully and had not yet released has a later release
attempt in its write log before the error returns (best-effort cleanup):
Ctrl and Shift for TypeUnicode, Shift for the shifted hex tap, right Alt
for both passthrough variants (and Shift for the Shift variant); a
failing PassthroughWithShiftRAlt with Shift user-held never writes any
Shift event at all. -/
theorem claim_C8 (o : Oracle) (n r k : Nat) (sad : Bool)
    (hk : IsModifier k = false) :
    ((TypeUnicode o n r).1 = false →
      cleaned 29 (TypeUnicode o n r).2.1 = true ∧
      cleaned 42 (TypeUnicode o n r).2.1 = true) ∧
    ((typeWithShift o n k).1 = false →
      cleaned 42 (typeWithShift o n k).2.1 = true) ∧
    ((PassthroughWithRAlt o n k).1 = false →
      cleaned 100 (PassthroughWithRAlt o n k).2.1 = true) ∧
    ((PassthroughWithShiftRAlt o n k sad).1 = false →
      cleaned 100 (PassthroughWithShiftRAlt o n k sad).2.1 = true ∧
      cleaned 42 (PassthroughWithShiftRAlt o n k sad).2.1 = true ∧
      (sad = true → ∀ e ∈ (PassthroughWithShiftRAlt o n k sad).2.1,
        e.op.code ≠ 42)) := by
  obtain ⟨_, _, hk42, _⟩ := IsModifier_false_ne hk
  refine ⟨fun _ => ⟨TypeUnicode_cleaned29 o n r, TypeUnicode_cleaned42 o n r⟩,
    fun _ => typeWithShift_cleaned o n k,
    fun _ => PassthroughWithRAlt_cleaned100 o n k,
    fun _ => ⟨PassthroughWithShiftRAlt_cleaned100 o n k sad,
      PassthroughWithShiftRAlt_cleaned42 o n k sad, ?_⟩⟩
  rintro rfl e he
  rcases PassthroughWithShiftRAlt_codes_held o n k e he with h | h <;> rw [h]
  · decide
  · exact hk42

/-- Witness for C8: with the second write failing, TypeUnicode fails yet
stays Ctrl-clean, and the Shift-held passthrough fails yet stays
right-Alt-clean. -/
theorem claim_C8_witness :
    IsModifier 6 = false ∧
    (TypeUnicode failSecond 0 233).1 = false ∧
    cleaned 29 (TypeUnicode failSecond 0 233).2.1 = true ∧
    (PassthroughWithShiftRAlt failSecond 0 6 true).1 = false ∧
    cleaned 100 (PassthroughWithShiftRAlt failSecond 0 6 true).2.1 = true :=
  ⟨by decide, by decide,
   ((claim_C8 failSecond 0 233 6 true (by decide)).1 (by decide)).1,
   by decide,
   ((claim_C8 failSecond 0 233 6 true (by decide)).2.2.2 (by decide)).1⟩
